import Mathlib

/-!
# Verification of the Redfish MCP server device-access layer

Shallow embedding of the Go sources of `mcp-redfish-go`:

* `pkg/redfish/client.go` — HTTP client with retry logic, session login,
  header filtering (`request`, `doRequest`, `IsRetryable`, `loginSession`,
  `Logout`, `Close`, `addAuthHeaders`, `GetWithHeaders`);
* `pkg/redfish/discovery.go` — SSDP discovery (`parseAL`,
  `isValidServiceRoot`, the response-collection loop of `Discover`);
* `pkg/common/hosts.go` — host registry (`HostManager.GetHosts`);
* `pkg/config/config.go` — `HostConfig` data type.

External libraries used by the Go code (the Go HTTP transport, the JSON
codec `encoding/json`, the standard `net/url` parser, `net/textproto`
header canonicalisation, the `retry-go` loop) are modelled explicitly:
pure wire-level inputs carry both the raw text and, where the Go code
invokes the JSON decoder, the decoder's result, and `net/url` /
`net/textproto` are re-implemented here following their documented
Go semantics for the fragment of inputs the client exercises.
-/

namespace RedfishMCP

/-! ## Errors (`pkg/redfish/types.go`) -/

/-- Embeds Go `RedfishError` (types.go): an error value carrying an HTTP
status code (`Code = 0` denotes a network-level failure, as in `doRequest`). -/
structure RedfishError where
  Code : Nat
  Message : String
deriving DecidableEq, Repr

/-- A Go `error` value as observed by the retry loop: either a typed
`*RedfishError` or some other error (wrapped `fmt.Errorf` values). -/
inductive GoError where
  | redfish (e : RedfishError)
  | other (msg : String)
deriving DecidableEq, Repr

/-- Embeds `IsRetryable` (types.go, lines 406-417): a `*RedfishError` whose
code lies in `[400, 500)` is not retried; every other error is. -/
def IsRetryable (err : GoError) : Bool :=
  match err with
  | .redfish e => if 400 ≤ e.Code ∧ e.Code < 500 then false else true
  | .other _ => true

/-! ## JSON values (results of the external `encoding/json` decoder) -/

/-- A decoded JSON document, the result of Go `json.Unmarshal` into
`interface{}`.  Numbers are irrelevant to every claim, so they are kept
abstract as integers. -/
inductive Json where
  | null
  | bool (b : Bool)
  | num (n : Int)
  | str (s : String)
  | arr (elems : List Json)
  | obj (fields : List (String × Json))

/-- `true` exactly on the JSON literal `null`. -/
def isJsonNullOpt : Option Json → Bool
  | some Json.null => true
  | _ => false

/-! ## Association lists standing in for Go maps

Go maps iterate in unspecified order; the claims under verification are
order-free (they only speak about keys and values), so a Go map is
modelled as an association list with unique keys: `assocSet` replaces an
existing binding in place or appends a fresh one. -/

/-- Lookup in a Go map. -/
def assocLookup {α : Type} [DecidableEq α] {β : Type} (m : List (α × β)) (k : α) : Option β :=
  (m.find? (fun p => p.1 = k)).map (fun p => p.2)

/-- `m[k] = v` on a Go map: replace the binding if the key is present,
append it otherwise. -/
def assocSet {α : Type} [DecidableEq α] {β : Type} : List (α × β) → α → β → List (α × β)
  | [], k, v => [(k, v)]
  | (k₀, v₀) :: rest, k, v =>
    if k₀ = k then (k, v) :: rest else (k₀, v₀) :: assocSet rest k v

/-! ## The retry loop (`request`, client.go lines 206-243)

`request` wraps `doRequest` in `retry.Do` from the external `retry-go`
library with `Attempts(MaxRetries + 1)` and `RetryIf(IsRetryable)`.
`retry-go` runs the function; on an error it stops at once when
`RetryIf` rejects the error, otherwise it sleeps and retries until the
attempt budget is spent.  The Go `request` records every attempt's error
in `lastErr` and, when `retry.Do` fails, discards `retry.Do`'s own
aggregate error and returns `lastErr` — so the model returns the error
of the last attempt executed.  The delays between attempts do not affect
the returned value and are not modelled.

An attempt is abstracted as `f : Nat → Except GoError RedfishResponse`
(the outcome of the i-th call of `doRequest`); the result pairs the
number of attempts actually executed with the final value. -/

/-- Embeds `pkg/redfish/types.go` `RedfishResponse`.  `Data` is the Go
`interface{}` produced in `doRequest`: `none` is the Go `nil` interface
(JSON `null` when re-marshalled). -/
structure RedfishResponse where
  StatusCode : Nat
  Headers : List (String × List String)
  Data : Option Json

/-- One round of `retry.Do`: `fuel` is the number of attempts still
allowed (`≥ 1` whenever reached from `request`), `i` the index of the
next attempt.  Returns (number of attempts executed, final outcome). -/
def retryGo (f : Nat → Except GoError RedfishResponse) :
    Nat → Nat → Nat × Except GoError RedfishResponse
  | 0, i => (i, .error (.other "retry: no attempts allowed"))
  | fuel + 1, i =>
    match f i with
    | .ok r => (i + 1, .ok r)
    | .error e =>
      if IsRetryable e = false then (i + 1, .error e)
      else if fuel = 0 then (i + 1, .error e)
      else retryGo f fuel (i + 1)

/-- The retry loop of `request` over an abstract attempt function, with
the attempt budget `MaxRetries + 1` used at client.go line 211. -/
def requestLoop (maxRetries : Nat) (f : Nat → Except GoError RedfishResponse) :
    Nat × Except GoError RedfishResponse :=
  retryGo f (maxRetries + 1) 0

/-! ## Retry-loop lemmas -/

/-- Any first-attempt error that `IsRetryable` rejects ends the loop at
one attempt with that error. -/
theorem retryLoop_nonretryable_single_attempt (maxRetries : Nat)
    (f : Nat → Except GoError RedfishResponse) (e : RedfishError)
    (h0 : f 0 = .error (.redfish e)) (h4 : 400 ≤ e.Code) (h5 : e.Code < 500) :
    IsRetryable (.redfish e) = false ∧
    requestLoop maxRetries f = (1, .error (.redfish e)) := by
  have hret : IsRetryable (.redfish e) = false := by
    simp [IsRetryable, h4, h5]
  refine ⟨hret, ?_⟩
  show retryGo f (maxRetries + 1) 0 = (1, .error (.redfish e))
  rw [retryGo, h0]
  simp [hret]

/-- Helper for C2: when every attempt in the budget fails with a
retryable error, the loop runs the whole budget and ends with the last
attempt's error. -/
theorem retryGo_all_retryable (f : Nat → Except GoError RedfishResponse)
    (errf : Nat → GoError) :
    ∀ fuel i, 1 ≤ fuel →
      (∀ j, j < fuel → f (i + j) = .error (errf (i + j))) →
      (∀ j, j < fuel → IsRetryable (errf (i + j)) = true) →
      retryGo f fuel i = (i + fuel, .error (errf (i + fuel - 1))) := by
  intro fuel
  induction fuel with
  | zero => intro i h1; omega
  | succ n ih =>
    intro i _ hfail hretry
    have h0 : f i = .error (errf i) := by
      have := hfail 0 (by omega); simpa using this
    have hr0 : IsRetryable (errf i) = true := by
      have := hretry 0 (by omega); simpa using this
    rw [retryGo, h0]
    cases n with
    | zero => simp [hr0]
    | succ m =>
      have hrec := ih (i + 1) (by omega)
        (fun j hj => by
          have := hfail (j + 1) (by omega)
          simpa [Nat.add_assoc, Nat.add_comm 1 j] using this)
        (fun j hj => by
          have := hretry (j + 1) (by omega)
          simpa [Nat.add_assoc, Nat.add_comm 1 j] using this)
      simp only [hr0, Bool.true_eq_false, if_false, Nat.succ_ne_zero, hrec]
      have h1 : i + 1 + (m + 1) = i + (m + 1 + 1) := by omega
      rw [h1]

/-- When every attempt in the budget fails with an error `IsRetryable`
accepts, the loop spends the whole budget and returns the last error. -/
theorem retryLoop_all_retryable (maxRetries : Nat)
    (f : Nat → Except GoError RedfishResponse) (errf : Nat → GoError)
    (hfail : ∀ i, i ≤ maxRetries → f i = .error (errf i))
    (hretry : ∀ i, i ≤ maxRetries → IsRetryable (errf i) = true) :
    requestLoop maxRetries f = (maxRetries + 1, .error (errf maxRetries)) := by
  have h := retryGo_all_retryable f errf (maxRetries + 1) 0 (by omega)
    (fun j hj => by simpa using hfail j (by omega))
    (fun j hj => by simpa using hretry j (by omega))
  simpa using h

/-! ## HTTP headers and `net/textproto` canonicalisation

Go's `http.Response.Header` is a `map[string][]string` whose keys were
put into canonical MIME form (`Content-Type`, `Etag`, `X-Auth-Token`)
when the wire response was parsed by `net/textproto.ReadMIMEHeader`.
A header map is modelled as an association list with unique keys. -/

/-- A Go `http.Header`. -/
abbrev Headers := List (String × List String)

/-- Go `net/textproto` `validHeaderFieldByte`: the RFC 7230 token
characters (ASCII letters and digits plus the listed symbols). -/
def isTokenChar (c : Char) : Bool :=
  c.isAlphanum || c = '!' || c = '#' || c = '$' || c = '%' || c = '&' ||
  c = '\x27' || c = '*' || c = '+' || c = '-' || c = '.' || c = '^' ||
  c = '_' || c = '\x60' || c = '|' || c = '~'

/-- The rewriting pass of `textproto.CanonicalMIMEHeaderKey`: uppercase
a letter at the start and after each hyphen, lowercase every other
letter. -/
def canonChars : Bool → List Char → List Char
  | _, [] => []
  | upper, c :: cs =>
    let c' := if upper && c.isLower then c.toUpper
              else if !upper && c.isUpper then c.toLower
              else c
    c' :: canonChars (c' = '-') cs

/-- Go `textproto.CanonicalMIMEHeaderKey`: a key containing a byte that
is not a valid header-field byte is returned unchanged; otherwise it is
canonicalised. -/
def canonicalMIMEHeaderKey (s : String) : String :=
  if s.data.all isTokenChar then ⟨canonChars true s.data⟩ else s

/-- Lookup of the raw values list of a key, `m[k]` on a Go map with the
`nil` zero value collapsed to `[]` (so `len(values) > 0` is `≠ []`). -/
def headersIndex (hdrs : Headers) (key : String) : List String :=
  (assocLookup hdrs key).getD []

/-- Go `http.Header.Get`: canonicalise the key, return the first value
or the empty string. -/
def headersGet (hdrs : Headers) (key : String) : String :=
  match assocLookup hdrs (canonicalMIMEHeaderKey key) with
  | some (v :: _) => v
  | _ => ""

/-- Go `http.Header.Set`: canonicalise the key, replace the values with
a singleton. -/
def headersSet (hdrs : Headers) (key value : String) : Headers :=
  assocSet hdrs (canonicalMIMEHeaderKey key) [value]

/-- One step of `textproto.ReadMIMEHeader`: append the value under the
canonicalised key. -/
def headersAdd (hdrs : Headers) (key value : String) : Headers :=
  assocSet hdrs key (headersIndex hdrs key ++ [value])

/-- Accumulating loop of `textproto.ReadMIMEHeader` over the wire
header lines (name-value pairs in wire order). -/
def parseHeadersAux : Headers → List (String × String) → Except String Headers
  | acc, [] => .ok acc
  | acc, (name, value) :: rest =>
    if name ≠ "" ∧ name.data.all isTokenChar then
      parseHeadersAux (headersAdd acc (canonicalMIMEHeaderKey name) value) rest
    else .error "malformed MIME header key"

/-- Parsing the wire response headers into a Go `http.Header`, as
`net/textproto.ReadMIMEHeader` does when `http.Client.Do` reads the
response: every stored key is the canonical MIME form of a valid wire
header name; a malformed name fails the whole read. -/
def parseHeaders (wire : List (String × String)) : Except String Headers :=
  parseHeadersAux [] wire

/-! ## Client configuration and state (`types.go`, `client.go`) -/

/-- Embeds the fields of `ClientConfig` (types.go) the device-access
claims depend on.  `AuthMethod` is a Go string (`"basic"`/`"session"`,
anything else hits the default of the `switch` in `addAuthHeaders`). -/
structure ClientConfig where
  Address : String
  Port : Nat
  Username : String
  Password : String
  AuthMethod : String
  MaxRetries : Nat
deriving DecidableEq, Repr

/-- The mutable state of a `Client`: its session token (empty = no
session). -/
structure ClientState where
  sessionToken : String
deriving DecidableEq, Repr

/-! ## Basic-auth header value (`http.Request.SetBasicAuth`) -/

/-- UTF-8 bytes of a character (the Go `string` byte view). -/
def utf8BytesOfChar (c : Char) : List Nat :=
  let n := c.toNat
  if n < 0x80 then [n]
  else if n < 0x800 then [0xC0 + n / 0x40, 0x80 + n % 0x40]
  else if n < 0x10000 then
    [0xE0 + n / 0x1000, 0x80 + (n / 0x40) % 0x40, 0x80 + n % 0x40]
  else
    [0xF0 + n / 0x40000, 0x80 + (n / 0x1000) % 0x40,
     0x80 + (n / 0x40) % 0x40, 0x80 + n % 0x40]

/-- UTF-8 bytes of a string. -/
def utf8Bytes (s : String) : List Nat :=
  s.data.foldr (fun c acc => utf8BytesOfChar c ++ acc) []

/-- The standard base64 alphabet used by Go `encoding/base64.StdEncoding`. -/
def base64Alphabet : List Char :=
  "ABCDEFGHIJKLMNOPQRSTUVWXYZabcdefghijklmnopqrstuvwxyz0123456789+/".data

/-- Character for a 6-bit group. -/
def b64Char (n : Nat) : Char := base64Alphabet.getD n '='

/-- Go `base64.StdEncoding.EncodeToString` over a byte list. -/
def base64Encode : List Nat → String
  | [] => ""
  | [b1] => ⟨[b64Char (b1 / 4), b64Char (b1 % 4 * 16), '=', '=']⟩
  | [b1, b2] =>
    ⟨[b64Char (b1 / 4), b64Char (b1 % 4 * 16 + b2 / 16), b64Char (b2 % 16 * 4), '=']⟩
  | b1 :: b2 :: b3 :: rest =>
    (⟨[b64Char (b1 / 4), b64Char (b1 % 4 * 16 + b2 / 16),
       b64Char (b2 % 16 * 4 + b3 / 64), b64Char (b3 % 64)]⟩ : String) ++
    base64Encode rest

/-- Go `http.Request.SetBasicAuth`: the `Authorization` value
`"Basic " + base64(username + ":" + password)`. -/
def basicAuthValue (username password : String) : String :=
  "Basic " ++ base64Encode (utf8Bytes (username ++ ":" ++ password))

/-! ## `addAuthHeaders` (client.go lines 316-329) -/

/-- Embeds `addAuthHeaders`: basic auth attaches the `Authorization`
header only when both credentials are non-empty; session auth attaches
`X-Auth-Token` only when a token is held; any other configured method
matches no `switch` case and attaches nothing.  The Go function always
returns a `nil` error, modelled by the `none` second component. -/
def addAuthHeaders (cfg : ClientConfig) (c : ClientState) (hdrs : Headers) :
    Headers × Option GoError :=
  if cfg.AuthMethod = "basic" then
    if cfg.Username ≠ "" ∧ cfg.Password ≠ "" then
      (headersSet hdrs "Authorization" (basicAuthValue cfg.Username cfg.Password), none)
    else (hdrs, none)
  else if cfg.AuthMethod = "session" then
    if c.sessionToken ≠ "" then
      (headersSet hdrs "X-Auth-Token" c.sessionToken, none)
    else (hdrs, none)
  else (hdrs, none)

/-- The headers `doRequest` sets on every outgoing request before
`addAuthHeaders` runs (client.go lines 266-268). -/
def baseRequestHeaders : Headers :=
  [("Content-Type", ["application/json"]), ("Accept", ["application/json"])]

/-- The full outgoing header set of one attempt in `doRequest`. -/
def outgoingHeaders (cfg : ClientConfig) (c : ClientState) : Headers :=
  (addAuthHeaders cfg c baseRequestHeaders).1

/-! ## Session login (`loginSession`, client.go lines 80-135)

The HTTP exchange and the JSON decoder are external, so the login
response is a wire-level value carrying the status, the parsed header
map, the raw body text, and the result of running `json.Unmarshal` on
the body (`none` when the bytes are not a valid JSON document, e.g. an
empty body, for which `Decode` returns `io.EOF`). -/

/-- Outcome of the login POST observed by `loginSession`. -/
inductive LoginOutcome where
  | netErr (msg : String)
  | resp (status : Nat) (headers : Headers) (bodyRaw : String) (bodyJson : Option Json)

/-- `json.NewDecoder(resp.Body).Decode(&sessionResp)` with
`sessionResp : map[string]interface{}`: succeeds on a JSON object
(yielding its fields) and on the literal `null` (yielding the `nil`
map); every other document — or invalid/empty bytes (`bodyJson = none`)
— is a decode error. -/
def decodeSessionMap : Option Json → Option (List (String × Json))
  | some (Json.obj fields) => some fields
  | some Json.null => some []
  | _ => none

/-- `sessionResp[key]` on the decoded map: Go keeps the last duplicate
of a repeated JSON key. -/
def jsonObjGet (fields : List (String × Json)) (key : String) : Option Json :=
  (fields.reverse.find? (fun p => p.1 = key)).map (fun p => p.2)

/-- Embeds `loginSession`: non-200/201 statuses fail; then the body is
decoded (a decode failure aborts the login even when the header holds a
token); then the token is read from the `X-Auth-Token` header when that
yields a non-empty string, falling back to a string-valued `token`
field of the body; finding neither is a hard error.  Returns the client
state after the call paired with the returned Go error. -/
def loginSession (c : ClientState) (outcome : LoginOutcome) :
    ClientState × Option GoError :=
  match outcome with
  | .netErr msg => (c, some (.other ("login request failed: " ++ msg)))
  | .resp status headers bodyRaw bodyJson =>
    if status ≠ 201 ∧ status ≠ 200 then
      (c, some (.redfish ⟨status,
        "login failed with status " ++ toString status ++ ": " ++ bodyRaw⟩))
    else
      match decodeSessionMap bodyJson with
      | none => (c, some (.other "failed to decode session response"))
      | some fields =>
        if headersGet headers "X-Auth-Token" ≠ "" then
          (⟨headersGet headers "X-Auth-Token"⟩, none)
        else
          match jsonObjGet fields "token" with
          | some (Json.str t) => (⟨t⟩, none)
          | _ => (c, some (.other "no session token found in response"))

/-- Embeds `Logout` (client.go lines 137-148): with no session token it
is a pure no-op; otherwise it clears the token.  Always returns `nil`. -/
def Logout (c : ClientState) : ClientState × Option GoError :=
  if c.sessionToken = "" then (c, none)
  else (⟨""⟩, none)

/-- Embeds `Close` (client.go lines 331-338): runs `Logout`, discards
its result, releases idle connections (no observable state here) and
returns `nil`. -/
def Close (c : ClientState) : ClientState × Option GoError :=
  ((Logout c).1, none)

/-! ## One request attempt (`doRequest`, client.go lines 246-314) -/

/-- Outcome of the HTTP exchange of one `doRequest` attempt.  `resp`
carries the parsed header map (`http.Client.Do` already decoded the
wire headers), the raw body text read by `io.ReadAll`, and the result
of `json.Unmarshal` on those bytes (`none` = not valid JSON). -/
inductive HttpOutcome where
  | netErr (msg : String)
  | readErr (msg : String)
  | resp (status : Nat) (headers : Headers) (bodyRaw : String) (bodyJson : Option Json)

/-- The `Data` field computed in `doRequest`: untouched `nil` for an
empty body; the decoded JSON document when the bytes parse (a top-level
JSON `null` leaves the `interface{}` as Go `nil`); the raw text as a
fallback when parsing fails. -/
def decodeBody (bodyRaw : String) (bodyJson : Option Json) : Option Json :=
  if bodyRaw = "" then none
  else
    match bodyJson with
    | some Json.null => none
    | some j => some j
    | none => some (Json.str bodyRaw)

/-- The protocol-error message `fmt.Sprintf("HTTP %d: %s", ...)`. -/
def httpErrMsg (status : Nat) (bodyRaw : String) : String :=
  "HTTP " ++ toString status ++ ": " ++ bodyRaw

/-- The error produced by `doRequest` for a failing exchange outcome. -/
def outcomeError (o : HttpOutcome) : GoError :=
  match o with
  | .netErr msg => .redfish ⟨0, "HTTP request failed: " ++ msg⟩
  | .readErr msg => .other ("failed to read response body: " ++ msg)
  | .resp status _ bodyRaw _ => .redfish ⟨status, httpErrMsg status bodyRaw⟩

/-- Embeds `doRequest`: a transport failure becomes a `RedfishError`
with code 0; a body-read failure a plain wrapped error; a status ≥ 400
a `RedfishError` carrying the status and the raw body; otherwise the
response with the full (unfiltered) header map and the decoded body. -/
def doRequest (o : HttpOutcome) : Except GoError RedfishResponse :=
  match o with
  | .netErr msg => .error (outcomeError (.netErr msg))
  | .readErr msg => .error (outcomeError (.readErr msg))
  | .resp status headers bodyRaw bodyJson =>
    if 400 ≤ status then .error (outcomeError (.resp status headers bodyRaw bodyJson))
    else .ok ⟨status, headers, decodeBody bodyRaw bodyJson⟩

/-- `request` (client.go lines 206-243) over a sequence of per-attempt
exchange outcomes: the retry loop around `doRequest`. -/
def request (cfg : ClientConfig) (outcomes : Nat → HttpOutcome) :
    Nat × Except GoError RedfishResponse :=
  requestLoop cfg.MaxRetries (fun i => doRequest (outcomes i))

/-! ## Theorems C1 and C2: retry classification -/

/-- C1.  For every request execution (all of GET/POST/PATCH/DELETE and
GetWithHeaders funnel into `request`) whose first attempt receives an
HTTP response with a status in [400,499] — which `doRequest` turns into
a protocol error carrying that status — the retry loop makes exactly
one attempt: `IsRetryable` classifies the error non-retryable and it is
surfaced immediately, unchanged, to the caller. -/
theorem c1_client_error_single_attempt (cfg : ClientConfig)
    (outcomes : Nat → HttpOutcome) (status : Nat) (headers : Headers)
    (bodyRaw : String) (bodyJson : Option Json)
    (h0 : outcomes 0 = .resp status headers bodyRaw bodyJson)
    (h4 : 400 ≤ status) (h5 : status < 500) :
    IsRetryable (.redfish ⟨status, httpErrMsg status bodyRaw⟩) = false ∧
    request cfg outcomes =
      (1, .error (.redfish ⟨status, httpErrMsg status bodyRaw⟩)) := by
  have hd : doRequest (outcomes 0) =
      .error (.redfish ⟨status, httpErrMsg status bodyRaw⟩) := by
    rw [h0]
    simp only [doRequest, outcomeError]
    rw [if_pos h4]
  exact retryLoop_nonretryable_single_attempt cfg.MaxRetries _ _ hd h4 h5

/-- Witness for C1: a 404 response on the first attempt with
`MaxRetries = 3` yields exactly one attempt and the 404 error. -/
theorem c1_witness :
    request ⟨"h", 443, "u", "p", "session", 3⟩
        (fun _ => .resp 404 [] "not found" none) =
      (1, .error (.redfish ⟨404, httpErrMsg 404 "not found"⟩)) :=
  (c1_client_error_single_attempt ⟨"h", 443, "u", "p", "session", 3⟩
    (fun _ => .resp 404 [] "not found" none) 404 [] "not found" none rfl
    (by decide) (by decide)).2

/-- C2.  For every request execution in which every attempt in the
budget fails with a retryable failure — a network-level error with no
status, or a response whose status is ≥ 500 — the retry loop makes
exactly `MaxRetries + 1` attempts and then surfaces the error of the
last attempt (the `lastErr` that `request` returns in place of
`retry.Do`'s aggregate), not a generic retries-exhausted error. -/
theorem c2_retryable_exhausts_budget (cfg : ClientConfig)
    (outcomes : Nat → HttpOutcome)
    (hfail : ∀ i, i ≤ cfg.MaxRetries →
      (∃ msg, outcomes i = .netErr msg) ∨
      (∃ status headers bodyRaw bodyJson,
        outcomes i = .resp status headers bodyRaw bodyJson ∧ 500 ≤ status)) :
    request cfg outcomes =
      (cfg.MaxRetries + 1, .error (outcomeError (outcomes cfg.MaxRetries))) := by
  apply retryLoop_all_retryable cfg.MaxRetries _ (fun i => outcomeError (outcomes i))
  · intro i hi
    rcases hfail i hi with ⟨msg, ho⟩ | ⟨status, headers, bodyRaw, bodyJson, ho, hst⟩
    · rw [ho]
      rfl
    · rw [ho]
      simp only [doRequest, outcomeError]
      rw [if_pos (by omega)]
  · intro i hi
    rcases hfail i hi with ⟨msg, ho⟩ | ⟨status, headers, bodyRaw, bodyJson, ho, hst⟩
    · rw [ho]
      rfl
    · rw [ho]
      simp only [outcomeError, IsRetryable]
      rw [if_neg (by omega)]

/-- Witness for C2: with `MaxRetries = 2` and a network failure on
every attempt, exactly 3 attempts are made and the last network error
is returned. -/
theorem c2_witness :
    request ⟨"h", 443, "u", "p", "session", 2⟩ (fun _ => .netErr "dial timeout") =
      (3, .error (.redfish ⟨0, "HTTP request failed: dial timeout"⟩)) :=
  c2_retryable_exhausts_budget ⟨"h", 443, "u", "p", "session", 2⟩
    (fun _ => .netErr "dial timeout")
    (fun _ _ => Or.inl ⟨"dial timeout", rfl⟩)

/-! ## `GetWithHeaders` header filtering (client.go lines 178-203) -/

/-- The `targetHeaders` literal of `GetWithHeaders`: lowercase lookup
keys mapped to the output names. -/
def targetHeaders : List (String × String) :=
  [("allow", "Allow"), ("content-type", "Content-Type"),
   ("content-encoding", "Content-Encoding"), ("etag", "ETag"), ("link", "Link")]

/-- The filtering loop of `GetWithHeaders`:
`if values := resp.Headers[headerName]; len(values) > 0` — a direct,
case-sensitive Go map index with the lowercase key — copies the values
under the standard name.  (Go iterates `targetHeaders` in random map
order; the output bindings have pairwise-distinct keys, so the fixed
fold order is an order-only refinement.) -/
def filterHeaders (respHeaders : Headers) : Headers :=
  targetHeaders.foldl
    (fun out p =>
      match headersIndex respHeaders p.1 with
      | [] => out
      | v :: vs => assocSet out p.2 (v :: vs))
    []

/-- Embeds `GetWithHeaders`: run the request, then replace the response
headers with the filtered map. -/
def GetWithHeaders (cfg : ClientConfig) (outcomes : Nat → HttpOutcome) :
    Nat × Except GoError RedfishResponse :=
  match request cfg outcomes with
  | (n, .ok r) => (n, .ok ⟨r.StatusCode, filterHeaders r.Headers, r.Data⟩)
  | (n, .error e) => (n, .error e)

/-! ## Facts about canonical header keys

The filtering loop of `GetWithHeaders` indexes the parsed header map
with all-lowercase keys, but `textproto` canonicalisation uppercases
the first letter of every valid header name, so no stored key can ever
equal a lookup key.  The lemmas below make this precise. -/

/-- The first-character transform of canonicalisation. -/
def canonHead (c : Char) : Char := if c.isLower then c.toUpper else c

theorem canonChars_cons_true (c : Char) (cs : List Char) :
    canonChars true (c :: cs) = canonHead c :: canonChars (canonHead c = '-') cs := by
  simp [canonChars, canonHead]

theorem toUpper_toNat (c : Char) (h1 : 97 ≤ c.toNat) (h2 : c.toNat ≤ 122) :
    (Char.toUpper c).toNat = c.toNat - 32 := by
  have hval : (c.toNat - 32).isValidChar := by
    constructor
    omega
  unfold Char.toUpper
  rw [if_pos ⟨h1, h2⟩]
  unfold Char.ofNat
  rw [dif_pos hval]
  rfl

/-- The canonicalised first character of a header key is never a
lowercase ASCII letter. -/
theorem canonHead_isLower_false (c : Char) : (canonHead c).isLower = false := by
  unfold canonHead
  by_cases hl : c.isLower = true
  · rw [if_pos hl]
    simp only [Char.isLower, ge_iff_le, Bool.and_eq_true, decide_eq_true_eq] at hl
    obtain ⟨h1, h2⟩ := hl
    have h1n : 97 ≤ c.toNat := h1
    have h2n : c.toNat ≤ 122 := h2
    have ht := toUpper_toNat c h1n h2n
    simp only [Char.isLower, ge_iff_le, Bool.and_eq_false_iff, decide_eq_false_iff_not,
      UInt32.not_le]
    left
    show Char.toNat c.toUpper < 97
    omega
  · rw [if_neg hl]
    simpa using hl

/-- Keys that can occur in a parsed header map: canonical forms of
valid wire header names. -/
def isCanonKey (k : String) : Prop :=
  ∃ nd : List Char, nd.all isTokenChar = true ∧ k = ⟨canonChars true nd⟩

theorem mem_keys_assocSet {α β : Type} [DecidableEq α]
    (m : List (α × β)) (k : α) (v : β) (a : α)
    (h : a ∈ (assocSet m k v).map Prod.fst) : a ∈ m.map Prod.fst ∨ a = k := by
  induction m with
  | nil =>
    right
    simpa [assocSet] using h
  | cons p rest ih =>
    rw [show assocSet (p :: rest) k v =
        if p.1 = k then (k, v) :: rest else p :: assocSet rest k v from rfl] at h
    by_cases hp : p.1 = k
    · rw [if_pos hp] at h
      simp only [List.map_cons, List.mem_cons] at h
      rcases h with h | h
      · right; exact h
      · left; simp [List.mem_cons, h]
    · rw [if_neg hp] at h
      simp only [List.map_cons, List.mem_cons] at h
      rcases h with h | h
      · left; simp [h]
      · rcases ih h with h' | h'
        · left; simp [List.mem_cons, h']
        · right; exact h'

theorem mem_assocSet {α β : Type} [DecidableEq α]
    (m : List (α × β)) (k : α) (v : β) (p : α × β)
    (h : p ∈ assocSet m k v) : p = (k, v) ∨ p ∈ m := by
  induction m with
  | nil => left; simpa [assocSet] using h
  | cons q rest ih =>
    rw [show assocSet (q :: rest) k v =
        if q.1 = k then (k, v) :: rest else q :: assocSet rest k v from rfl] at h
    by_cases hq : q.1 = k
    · rw [if_pos hq] at h
      rcases List.mem_cons.mp h with h' | h'
      · left; exact h'
      · right; exact List.mem_cons_of_mem _ h'
    · rw [if_neg hq] at h
      rcases List.mem_cons.mp h with h' | h'
      · right; exact h' ▸ List.mem_cons_self _ _
      · rcases ih h' with h'' | h''
        · left; exact h''
        · right; exact List.mem_cons_of_mem _ h''

theorem assocLookup_eq_none_of_ne {α β : Type} [DecidableEq α]
    (m : List (α × β)) (k : α) (h : ∀ p ∈ m, p.1 ≠ k) : assocLookup m k = none := by
  unfold assocLookup
  have : m.find? (fun p => p.1 = k) = none := by
    rw [List.find?_eq_none]
    intro p hp
    simpa using h p hp
  rw [this]
  rfl

/-- Every key of a successfully parsed header map is a canonical key. -/
theorem parseHeadersAux_keys (wire : List (String × String)) :
    ∀ (acc m : Headers), parseHeadersAux acc wire = .ok m →
      (∀ k ∈ acc.map Prod.fst, isCanonKey k) →
      ∀ k ∈ m.map Prod.fst, isCanonKey k := by
  induction wire with
  | nil =>
    intro acc m h hacc
    unfold parseHeadersAux at h
    cases h
    exact hacc
  | cons nv rest ih =>
    intro acc m h hacc
    unfold parseHeadersAux at h
    by_cases hv : nv.1 ≠ "" ∧ nv.1.data.all isTokenChar
    · rw [if_pos hv] at h
      refine ih _ _ h ?_
      intro k hk
      rcases mem_keys_assocSet _ _ _ _ hk with h' | h'
      · exact hacc k h'
      · refine ⟨nv.1.data, hv.2, ?_⟩
        rw [h']
        unfold canonicalMIMEHeaderKey
        rw [if_pos hv.2]
    · rw [if_neg hv] at h
      cases h

/-- A canonical key never equals a string starting with a lowercase
letter. -/
theorem isCanonKey_ne_lower (k : String) (hk : isCanonKey k)
    (t : String) (c : Char) (cs : List Char)
    (ht : t.data = c :: cs) (hc : c.isLower = true) : k ≠ t := by
  obtain ⟨nd, _, hkc⟩ := hk
  intro he
  subst he
  have hdata : canonChars true nd = c :: cs := by
    have := congrArg String.data hkc
    simpa [ht] using this.symm
  cases nd with
  | nil => simp [canonChars] at hdata
  | cons d ds =>
    rw [canonChars_cons_true] at hdata
    have hhead : canonHead d = c := (List.cons.injEq _ _ _ _ ▸ hdata).1
    have := canonHead_isLower_false d
    rw [hhead, hc] at this
    cases this

/-- After `net/textproto` parsing, none of the five lowercase lookup
keys of `GetWithHeaders` occurs in the header map, so the filtered map
is empty. -/
theorem filterHeaders_parsed_empty (wire : List (String × String)) (m : Headers)
    (h : parseHeaders wire = .ok m) : filterHeaders m = [] := by
  have hkeys : ∀ k ∈ m.map Prod.fst, isCanonKey k :=
    parseHeadersAux_keys wire [] m h (by simp)
  have hnone : ∀ t : String, (∃ c cs, t.data = c :: cs ∧ c.isLower = true) →
      assocLookup m t = none := by
    intro t ⟨c, cs, htd, hcl⟩
    apply assocLookup_eq_none_of_ne
    intro p hp
    have : isCanonKey p.1 := hkeys p.1 (List.mem_map_of_mem _ hp)
    exact isCanonKey_ne_lower p.1 this t c cs htd hcl
  have h1 : assocLookup m "allow" = none := hnone _ ⟨'a', _, rfl, by decide⟩
  have h2 : assocLookup m "content-type" = none := hnone _ ⟨'c', _, rfl, by decide⟩
  have h3 : assocLookup m "content-encoding" = none := hnone _ ⟨'c', _, rfl, by decide⟩
  have h4 : assocLookup m "etag" = none := hnone _ ⟨'e', _, rfl, by decide⟩
  have h5 : assocLookup m "link" = none := hnone _ ⟨'l', _, rfl, by decide⟩
  simp [filterHeaders, targetHeaders, headersIndex, h1, h2, h3, h4, h5]

/-- C6 (code bug, concrete failing run).  The spec demands that an
`ETag` response header survive `GetWithHeaders` as `ETag` — but the
parsed header map stores the canonical key `"Etag"`, while the filter
indexes the map with the exact lowercase string `"etag"`, so the header
is dropped and the output map is empty.  The last conjunct shows the
mismatch is inescapable: even a lowercase wire name is canonicalised to
`"Etag"` before the filter runs. -/
theorem c6_lowercase_index_drops_all_headers :
    parseHeaders [("ETag", "\x22abc\x22"), ("X-Custom", "ignored")] =
      .ok [("Etag", ["\x22abc\x22"]), ("X-Custom", ["ignored"])] ∧
    filterHeaders [("Etag", ["\x22abc\x22"]), ("X-Custom", ["ignored"])] = [] ∧
    canonicalMIMEHeaderKey "etag" = "Etag" ∧
    canonicalMIMEHeaderKey "ETag" = "Etag" := by
  refine ⟨?_, ?_, ?_, ?_⟩ <;> rfl

/-! ## Theorems C7 and C8: response shape on success, login failure -/

/-- C7 (counterexample).  A 200 response with an empty body and an
`X-Custom` header is a success whose returned `Data` is the Go `nil`
interface (JSON null) and whose header map keeps the non-allow-listed
`X-Custom` name — refuting both halves of the claim that on success the
body is never null and only allow-listed header names are returned. -/
theorem c7_counterexample :
    doRequest (.resp 200 [("X-Custom", ["v"])] "" none) =
      .ok ⟨200, [("X-Custom", ["v"])], none⟩ ∧
    "X-Custom" ∈ ([("X-Custom", ["v"])] : Headers).map Prod.fst ∧
    "X-Custom" ∉ targetHeaders.map Prod.snd := by
  refine ⟨rfl, by decide, by decide⟩

/-- C7 (amended).  For every request attempt that returns success
(status < 400), the returned response carries the full parsed response
header map unfiltered (only `GetWithHeaders` filters it), and its
decoded body field is null exactly when the response body is empty or
is the JSON literal `null`; otherwise it is non-null. -/
theorem c7_success_body_and_headers (status : Nat) (headers : Headers)
    (bodyRaw : String) (bodyJson : Option Json) (hst : status < 400) :
    doRequest (.resp status headers bodyRaw bodyJson) =
      .ok ⟨status, headers, decodeBody bodyRaw bodyJson⟩ ∧
    (decodeBody bodyRaw bodyJson = none ↔
      bodyRaw = "" ∨ isJsonNullOpt bodyJson = true) := by
  constructor
  · simp only [doRequest]
    rw [if_neg (by omega)]
  · unfold decodeBody
    by_cases hr : bodyRaw = ""
    · simp [hr]
    · rw [if_neg hr]
      rcases bodyJson with _ | j
      · simp [isJsonNullOpt, hr]
      · cases j <;> simp [isJsonNullOpt, hr]

/-- Witness for C7 (amended): a 200 response with a JSON-object body
keeps its status, full headers and decoded body. -/
theorem c7_witness :
    doRequest (.resp 200 [("Content-Type", ["application/json"])]
        "\x7b\x7d" (some (Json.obj []))) =
      .ok ⟨200, [("Content-Type", ["application/json"])], some (Json.obj [])⟩ :=
  (c7_success_body_and_headers 200 [("Content-Type", ["application/json"])]
    "\x7b\x7d" (some (Json.obj [])) (by omega)).1

/-- C8.  Every failing session login (bad status, undecodable body, or
no token found) leaves the client state exactly as it was; in
particular a client whose token was empty still has an empty token —
no partial or degraded session state is left behind. -/
theorem c8_login_error_leaves_state (c : ClientState) (outcome : LoginOutcome)
    (herr : (loginSession c outcome).2.isSome = true) :
    (loginSession c outcome).1 = c ∧
    (c.sessionToken = "" → (loginSession c outcome).1.sessionToken = "") := by
  suffices h : (loginSession c outcome).1 = c by
    exact ⟨h, fun he => by rw [h, he]⟩
  cases outcome with
  | netErr msg => rfl
  | resp status headers bodyRaw bodyJson =>
    simp only [loginSession] at herr ⊢
    by_cases hst : status ≠ 201 ∧ status ≠ 200
    · rw [if_pos hst]
    · rw [if_neg hst] at herr ⊢
      revert herr
      rcases hdec : decodeSessionMap bodyJson with _ | fields
      · intro herr
        rfl
      · intro herr
        simp only at herr ⊢
        by_cases htok : headersGet headers "X-Auth-Token" ≠ ""
        · rw [if_pos htok] at herr
          simp at herr
        · rw [if_neg htok] at herr ⊢
          revert herr
          rcases hget : jsonObjGet fields "token" with _ | j
          · intro herr
            rfl
          · intro herr
            cases j with
            | str t => simp at herr
            | null => rfl
            | bool b => rfl
            | num n => rfl
            | arr elems => rfl
            | obj fs => rfl

/-- Witness for C8: a 403 login response leaves the fresh client's
token empty. -/
theorem c8_witness :
    (loginSession ⟨""⟩ (.resp 403 [] "denied" none)).1 = ⟨""⟩ :=
  (c8_login_error_leaves_state ⟨""⟩ (.resp 403 [] "denied" none) rfl).1

/-! ## Theorem C9: Logout idempotence, Close safety -/

/-- C9.  `Logout` never returns an error and always leaves the token
empty; running it twice is the same as running it once (the second call
is a no-op); on a client that never logged in it is a pure no-op; and
`Close` returns no error and is safe without a prior `Login`. -/
theorem c9_logout_idempotent_close_safe (c : ClientState) :
    (Logout c).2 = none ∧
    (Logout c).1.sessionToken = "" ∧
    Logout (Logout c).1 = ((Logout c).1, none) ∧
    (c.sessionToken = "" → Logout c = (c, none)) ∧
    (Close c).2 = none ∧
    (c.sessionToken = "" → Close c = (c, none)) := by
  unfold Close Logout
  by_cases h : c.sessionToken = "" <;> simp [h]

/-- Witness for C9: on a never-logged-in client both `Logout` and
`Close` are errorless no-ops. -/
theorem c9_witness : Logout ⟨""⟩ = (⟨""⟩, none) ∧ Close ⟨""⟩ = (⟨""⟩, none) :=
  ⟨(c9_logout_idempotent_close_safe ⟨""⟩).2.2.2.1 rfl,
   (c9_logout_idempotent_close_safe ⟨""⟩).2.2.2.2.2 rfl⟩

/-! ## Theorem C10: basic-auth header presence -/

/-- C10.  Under the basic auth method, `addAuthHeaders` raises no error
and the outgoing request carries the `Authorization` header (with the
encoded credentials) exactly when both the username and the password
are non-empty; when either is empty the outgoing headers are the bare
base headers, which carry no authentication header at all. -/
theorem c10_basic_auth_header_iff (cfg : ClientConfig) (c : ClientState)
    (hbasic : cfg.AuthMethod = "basic") :
    (addAuthHeaders cfg c baseRequestHeaders).2 = none ∧
    (cfg.Username ≠ "" ∧ cfg.Password ≠ "" ↔
      assocLookup (outgoingHeaders cfg c) "Authorization" =
        some [basicAuthValue cfg.Username cfg.Password]) ∧
    ((cfg.Username = "" ∨ cfg.Password = "") →
      outgoingHeaders cfg c = baseRequestHeaders) ∧
    assocLookup baseRequestHeaders "Authorization" = none := by
  unfold outgoingHeaders addAuthHeaders
  rw [if_pos hbasic]
  by_cases hcred : cfg.Username ≠ "" ∧ cfg.Password ≠ ""
  · rw [if_pos hcred]
    refine ⟨rfl, ⟨fun _ => rfl, fun _ => hcred⟩, fun h => ?_, rfl⟩
    rcases h with h | h
    · exact absurd h hcred.1
    · exact absurd h hcred.2
  · rw [if_neg hcred]
    refine ⟨rfl, ⟨fun h => absurd h hcred, fun h => ?_⟩, fun _ => rfl, rfl⟩
    simp [assocLookup, baseRequestHeaders] at h

/-- Witness for C10: with both credentials set, the outgoing request
carries the encoded `Authorization` header. -/
theorem c10_witness :
    assocLookup (outgoingHeaders ⟨"host", 443, "admin", "secret", "basic", 3⟩ ⟨""⟩)
        "Authorization" =
      some [basicAuthValue "admin" "secret"] :=
  ((c10_basic_auth_header_iff ⟨"host", 443, "admin", "secret", "basic", 3⟩ ⟨""⟩
      rfl).2.1).mp (by decide)

/-! ## Theorem C3: session token extraction and attachment -/

/-- C3 (counterexample).  A 200 login response carrying the
`X-Auth-Token: tok123` header but a body that is not a decodable JSON
document (here: an empty body, for which `Decode` fails with `io.EOF`)
makes `loginSession` return a decode error *before* it ever looks at
the header — the claim's promise that the token is taken from the
header whenever it is present is false on this input. -/
theorem c3_counterexample :
    (loginSession ⟨""⟩ (.resp 200 [("X-Auth-Token", ["tok123"])] "" none)).2 =
      some (.other "failed to decode session response") ∧
    (loginSession ⟨""⟩
        (.resp 200 [("X-Auth-Token", ["tok123"])] "" none)).1.sessionToken ≠
      "tok123" := by
  exact ⟨rfl, by decide⟩

/-- C3 (amended).  For every session login receiving a 200 or 201
response *whose body decodes as a JSON map*, the token is taken from
the `X-Auth-Token` header when its first value is non-empty; only
otherwise does the client fall back to a string-valued `token` field of
the body; with neither available, login errors and leaves the state
untouched.  A non-empty token so obtained is attached as an
`X-Auth-Token` header to every outgoing request of a session-method
client, and is attached no longer once `Logout` or `Close` has run. -/
theorem c3_token_extraction_and_attachment (c : ClientState) (status : Nat)
    (headers : Headers) (bodyRaw : String) (bodyJson : Option Json)
    (fields : List (String × Json))
    (hst : status = 200 ∨ status = 201)
    (hdec : decodeSessionMap bodyJson = some fields) :
    (headersGet headers "X-Auth-Token" ≠ "" →
      loginSession c (.resp status headers bodyRaw bodyJson) =
        (⟨headersGet headers "X-Auth-Token"⟩, none)) ∧
    (headersGet headers "X-Auth-Token" = "" →
      (∀ t, jsonObjGet fields "token" = some (Json.str t) →
        loginSession c (.resp status headers bodyRaw bodyJson) = (⟨t⟩, none)) ∧
      ((∀ t, jsonObjGet fields "token" ≠ some (Json.str t)) →
        (loginSession c (.resp status headers bodyRaw bodyJson)).1 = c ∧
        (loginSession c (.resp status headers bodyRaw bodyJson)).2.isSome = true)) ∧
    (∀ (cfg : ClientConfig) (tok : String), cfg.AuthMethod = "session" → tok ≠ "" →
      headersGet (outgoingHeaders cfg ⟨tok⟩) "X-Auth-Token" = tok ∧
      assocLookup (outgoingHeaders cfg (Logout ⟨tok⟩).1) "X-Auth-Token" = none ∧
      assocLookup (outgoingHeaders cfg (Close ⟨tok⟩).1) "X-Auth-Token" = none) := by
  have hstatus : ¬(status ≠ 201 ∧ status ≠ 200) := by
    rcases hst with h | h <;> simp [h]
  refine ⟨?_, ?_, ?_⟩
  · intro htok
    simp only [loginSession]
    rw [if_neg hstatus, hdec]
    simp only
    rw [if_pos htok]
  · intro htok
    constructor
    · intro t hget
      simp only [loginSession]
      rw [if_neg hstatus, hdec]
      simp only
      rw [if_neg (by simpa using htok), hget]
    · intro hnone
      simp only [loginSession]
      rw [if_neg hstatus, hdec]
      simp only
      rw [if_neg (by simpa using htok)]
      rcases hget : jsonObjGet fields "token" with _ | j
      · exact ⟨rfl, rfl⟩
      · cases j with
        | str t => exact absurd hget (hnone t)
        | null => exact ⟨rfl, rfl⟩
        | bool b => exact ⟨rfl, rfl⟩
        | num n => exact ⟨rfl, rfl⟩
        | arr elems => exact ⟨rfl, rfl⟩
        | obj fs => exact ⟨rfl, rfl⟩
  · intro cfg tok hcfg htok
    have hnotbasic : ¬ cfg.AuthMethod = "basic" := by
      rw [hcfg]
      decide
    have hlogout : Logout ⟨tok⟩ = (⟨""⟩, none) := by
      unfold Logout
      rw [if_neg (by simpa using htok)]
    have hclose : (Close ⟨tok⟩).1 = (⟨""⟩ : ClientState) := by
      unfold Close
      rw [hlogout]
    refine ⟨?_, ?_, ?_⟩
    · unfold outgoingHeaders addAuthHeaders
      rw [if_neg hnotbasic, if_pos hcfg,
        if_pos (show (⟨tok⟩ : ClientState).sessionToken ≠ "" from htok)]
      rfl
    · rw [hlogout]
      unfold outgoingHeaders addAuthHeaders
      rw [if_neg hnotbasic, if_pos hcfg]
      rw [if_neg (show ¬((⟨""⟩ : ClientState).sessionToken ≠ "") by simp)]
      rfl
    · rw [hclose]
      unfold outgoingHeaders addAuthHeaders
      rw [if_neg hnotbasic, if_pos hcfg]
      rw [if_neg (show ¬((⟨""⟩ : ClientState).sessionToken ≠ "") by simp)]
      rfl

/-- Witness for C3 (amended): a 200 response with header
`X-Auth-Token: tok123` and a decodable (empty-object) body logs in with
token `tok123`. -/
theorem c3_witness :
    loginSession ⟨""⟩ (.resp 200 [("X-Auth-Token", ["tok123"])]
        "\x7b\x7d" (some (Json.obj []))) =
      (⟨"tok123"⟩, none) :=
  (c3_token_extraction_and_attachment ⟨""⟩ 200 [("X-Auth-Token", ["tok123"])]
      "\x7b\x7d" (some (Json.obj [])) [] (Or.inl rfl) rfl).1 (by decide)

/-! ## SSDP discovery (`pkg/redfish/discovery.go`)

`parseAL` scans the response lines for the first `AL:` header
(`regexp` pattern `(?i)^AL:\s*(.+)$` on each trimmed line);
`isValidServiceRoot` feeds its value to the external `net/url` parser
and checks scheme, host and path (`^/redfish/v1/?$`).  The `net/url`
parser is re-implemented below following the Go standard library
semantics for the URL shapes reachable here (scheme extraction,
fragment/query stripping, authority with userinfo and optional port,
percent-unescaping of host and path; the RFC 6874 IPv6 zone handling
inside brackets is folded into plain host unescaping). -/

/-- Go `unicode.IsSpace` over the whitespace characters that occur in
SSDP datagrams (ASCII whitespace plus NEL and NBSP; the exotic Unicode
`Zs` code points do not occur in these HTTP-like datagrams). -/
def goIsSpace (c : Char) : Bool :=
  c = ' ' || c = '\t' || c = '\n' || c = '\x0b' || c = '\x0c' || c = '\r' ||
  c = '\x85' || c = '\xa0'

/-- `strings.TrimSpace` on a character list. -/
def trimChars (l : List Char) : List Char :=
  ((l.dropWhile goIsSpace).reverse.dropWhile goIsSpace).reverse

/-- `strings.TrimSpace`. -/
def goTrimSpace (s : String) : String := ⟨trimChars s.data⟩

/-- The `\s` character class of Go `regexp` (`[\t\n\f\r ]`). -/
def regexSpace (c : Char) : Bool :=
  c = '\t' || c = '\n' || c = '\x0c' || c = '\r' || c = ' '

/-- `strings.Split(s, "\n")` on character lists. -/
def splitOnNL : List Char → List (List Char)
  | [] => [[]]
  | c :: cs =>
    match splitOnNL cs with
    | [] => [[]]
    | h :: t => if c = '\n' then [] :: h :: t else (c :: h) :: t

/-- The per-line matcher compiled from `regexp`
`(?i)^AL:\s*(.+)$` followed by `strings.TrimSpace` on the capture: the
line must start with `AL:` case-insensitively; the capture is the rest
with the maximal leading `\s*` stripped and must be non-empty and free
of newlines (`.` does not match a newline). -/
def alValue (t : List Char) : Option (List Char) :=
  match t with
  | a :: b :: c :: rest =>
    if (a = 'A' || a = 'a') && (b = 'L' || b = 'l') && c = ':' then
      let v := rest.dropWhile regexSpace
      if v = [] || v.any (fun ch => ch = '\n') then none
      else some (trimChars v)
    else none
  | _ => none

/-- The scanning loop of `parseAL`: first matching line wins, no match
yields the empty string. -/
def parseALLines : List (List Char) → String
  | [] => ""
  | line :: rest =>
    match alValue (trimChars line) with
    | some v => ⟨v⟩
    | none => parseALLines rest

/-- Embeds `parseAL` (discovery.go lines 523-536). -/
def parseAL (response : String) : String :=
  parseALLines (splitOnNL response.data)

/-! ### The `net/url` parser fragment -/

/-- `net/url` rejects URLs containing ASCII control bytes. -/
def containsCTLChar (l : List Char) : Bool :=
  l.any (fun c => c.toNat < 0x20 || c.toNat = 0x7f)

/-- Result of Go `getScheme`. -/
inductive SchemeResult where
  | err
  | noScheme
  | found (scheme : List Char) (rest : List Char)

/-- Go `getScheme`: letters continue a scheme; digits and `+ - .` may
continue but not start one; a `:` ends it (erroring on an empty
scheme); any other character means the URL has no scheme. -/
def getScheme : List Char → List Char → SchemeResult
  | _, [] => .noScheme
  | acc, c :: cs =>
    if c.isAlpha then getScheme (acc ++ [c]) cs
    else if c.isDigit || c = '+' || c = '-' || c = '.' then
      if acc = [] then .noScheme else getScheme (acc ++ [c]) cs
    else if c = ':' then
      if acc = [] then .err else .found acc cs
    else .noScheme

/-- Split before the first occurrence of a separator, `none` when
absent. -/
def spanUntil (sep : Char) : List Char → Option (List Char × List Char)
  | [] => none
  | c :: cs =>
    if c = sep then some ([], cs)
    else
      match spanUntil sep cs with
      | none => none
      | some (a, b) => some (c :: a, b)

/-- Go `split(s, sep, true)`: cut at the first separator, dropping it. -/
def splitCut (l : List Char) (sep : Char) : List Char × List Char :=
  match spanUntil sep l with
  | none => (l, [])
  | some (a, b) => (a, b)

/-- Go `split(s, sep, false)`: cut at the first separator, keeping it
in the remainder. -/
def splitKeep (l : List Char) (sep : Char) : List Char × List Char :=
  match spanUntil sep l with
  | none => (l, [])
  | some (a, b) => (a, sep :: b)

/-- Hexadecimal digit value. -/
def hexVal (c : Char) : Option Nat :=
  if '0' ≤ c ∧ c ≤ '9' then some (c.toNat - 48)
  else if 'a' ≤ c ∧ c ≤ 'f' then some (c.toNat - 87)
  else if 'A' ≤ c ∧ c ≤ 'F' then some (c.toNat - 55)
  else none

/-- Go `unescape(s, encodingPath)`: decode `%XX` escapes, failing on a
truncated or non-hex escape; all other characters pass through.  (The
decoded byte is represented as a character; multi-byte UTF-8 escape
sequences decode to byte-valued characters, which cannot make the path
equal to the all-ASCII service-root path either way.) -/
def unescapePath : List Char → Option (List Char)
  | [] => some []
  | '%' :: a :: b :: rest =>
    match hexVal a, hexVal b with
    | some ha, some hb =>
      match unescapePath rest with
      | some l => some (Char.ofNat (ha * 16 + hb) :: l)
      | none => none
    | _, _ => none
  | '%' :: _ => none
  | c :: rest =>
    match unescapePath rest with
    | some l => some (c :: l)
    | none => none

/-- Go `validOptionalPort`: empty, or `:` followed by digits only. -/
def validOptionalPort : List Char → Bool
  | [] => true
  | ':' :: digits => digits.all Char.isDigit
  | _ => false

/-- The bytes `shouldEscape(c, encodingHost)` admits unescaped:
alphanumerics, RFC 3986 unreserved and sub-delims, plus the host-only
relaxations. -/
def validHostChar (c : Char) : Bool :=
  c.isAlphanum || c = '-' || c = '_' || c = '.' || c = '~' ||
  c = '!' || c = '$' || c = '&' || c = '\x27' || c = '(' || c = ')' ||
  c = '*' || c = '+' || c = ',' || c = ';' || c = '=' || c = ':' ||
  c = '[' || c = ']' || c = '<' || c = '>' || c = '\x22'

/-- Go `unescape(s, encodingHost)`: `%XX` escapes must be valid hex and
may only denote non-ASCII bytes (except the literal `%25`); unescaped
ASCII bytes must be valid host bytes. -/
def unescapeHost : List Char → Option (List Char)
  | [] => some []
  | '%' :: a :: b :: rest =>
    match hexVal a, hexVal b with
    | some ha, some hb =>
      if ha * 16 + hb < 0x80 ∧ ¬(a = '2' ∧ b = '5') then none
      else
        match unescapeHost rest with
        | some l => some (Char.ofNat (ha * 16 + hb) :: l)
        | none => none
    | _, _ => none
  | '%' :: _ => none
  | c :: rest =>
    if c.toNat < 0x80 ∧ ¬ validHostChar c then none
    else
      match unescapeHost rest with
      | some l => some (c :: l)
      | none => none

/-- Index of the last occurrence of a character. -/
def lastIndexOfChar (l : List Char) (c : Char) : Option Nat :=
  match l with
  | [] => none
  | x :: xs =>
    match lastIndexOfChar xs c with
    | some i => some (i + 1)
    | none => if x = c then some 0 else none

/-- Go `parseHost`: a bracketed host needs a closing bracket and a
valid optional port after it; otherwise the last `:` must start a valid
port; the whole host (port included) is then host-unescaped. -/
def parseHost (h : List Char) : Option (List Char) :=
  match h with
  | '[' :: _ =>
    match lastIndexOfChar h ']' with
    | none => none
    | some i => if validOptionalPort (h.drop (i + 1)) then unescapeHost h else none
  | _ =>
    match lastIndexOfChar h ':' with
    | none => unescapeHost h
    | some i => if validOptionalPort (h.drop i) then unescapeHost h else none

/-- Go `validUserinfo`: the characters admitted in the userinfo
component. -/
def validUserinfoChar (c : Char) : Bool :=
  c.isAlphanum || c = '-' || c = '.' || c = '_' || c = ':' || c = '~' ||
  c = '!' || c = '$' || c = '&' || c = '\x27' || c = '(' || c = ')' ||
  c = '*' || c = '+' || c = ',' || c = ';' || c = '=' || c = '%' || c = '@'

/-- Every `%` starts a two-digit hex escape (the userinfo unescaping of
`net/url` fails otherwise). -/
def validEscapes : List Char → Bool
  | [] => true
  | '%' :: a :: b :: rest => ((hexVal a).isSome && (hexVal b).isSome) && validEscapes rest
  | '%' :: _ => false
  | _ :: rest => validEscapes rest

/-- Go `parseAuthority`: the userinfo ends at the last `@`; the host
part is parsed by `parseHost`; the userinfo characters and escapes must
be valid.  Only the `Host` field is needed downstream. -/
def parseAuthority (authority : List Char) : Option (List Char) :=
  match lastIndexOfChar authority '@' with
  | none => parseHost authority
  | some i =>
    match parseHost (authority.drop (i + 1)) with
    | none => none
    | some host =>
      if (authority.take i).all validUserinfoChar && validEscapes (authority.take i) then
        some host
      else none

/-- The fields of Go `url.URL` read by `isValidServiceRoot`. -/
structure GoURL where
  Scheme : String
  Opaque : String
  Host : String
  Path : String
deriving DecidableEq, Repr

/-- Does the list start with `//`? -/
def startsWith2Slash : List Char → Bool
  | '/' :: '/' :: _ => true
  | _ => false

/-- Does the list start with `///`? -/
def startsWith3Slash : List Char → Bool
  | '/' :: '/' :: '/' :: _ => true
  | _ => false

/-- The body of Go `parse(rest, viaRequest=false)` once the scheme has
been split off: strip the query, then either an opaque part (scheme
present, no leading slash), a rootless path (no scheme — erroring when
its first segment contains a colon), or an authority plus path. -/
def urlParseMain (scheme : List Char) (rest0 : List Char) : Option GoURL :=
  let schemeStr : String := ⟨scheme.map Char.toLower⟩
  let rest1 := (splitCut rest0 '?').1
  if rest1.head? = some '/' then
    if (decide (scheme ≠ []) || !startsWith3Slash rest1) && startsWith2Slash rest1 then
      let ar := splitKeep (rest1.drop 2) '/'
      match parseAuthority ar.1 with
      | none => none
      | some host =>
        match unescapePath ar.2 with
        | some p => some ⟨schemeStr, "", ⟨host⟩, ⟨p⟩⟩
        | none => none
    else
      match unescapePath rest1 with
      | some p => some ⟨schemeStr, "", "", ⟨p⟩⟩
      | none => none
  else
    if scheme ≠ [] then some ⟨schemeStr, ⟨rest1⟩, "", ""⟩
    else if ((splitCut rest1 '/').1).any (fun c => c = ':') then none
    else
      match unescapePath rest1 with
      | some p => some ⟨schemeStr, "", "", ⟨p⟩⟩
      | none => none

/-- Embeds Go `url.Parse` for the fields the discovery validation
reads: `none` is a parse error. -/
def urlParse (raw : String) : Option GoURL :=
  if containsCTLChar raw.data then none
  else
    let u := (splitCut raw.data '#').1
    match getScheme [] u with
    | .err => none
    | .noScheme => urlParseMain [] u
    | .found scheme rest => urlParseMain scheme rest

/-- Embeds `isValidServiceRoot` (discovery.go lines 538-566): the URI
must parse, use scheme `https`, have a non-empty host, and its path
must match `^/redfish/v1/?$` — compiled to the two admitted strings. -/
def isValidServiceRoot (uri : String) : Bool :=
  match urlParse uri with
  | none => false
  | some u =>
    u.Scheme == "https" && u.Host != "" &&
    (u.Path == "/redfish/v1" || u.Path == "/redfish/v1/")

/-- Embeds `DiscoveredHost` (types.go). -/
structure DiscoveredHost where
  Address : String
  ServiceRoot : String
deriving DecidableEq, Repr

/-- The acceptance test of the `Discover` read loop (discovery.go line
504): `alURI != "" && d.isValidServiceRoot(alURI)`. -/
def respContributes (r : String) : Bool :=
  parseAL r != "" && isValidServiceRoot (parseAL r)

/-- The response-collection loop of `Discover` (discovery.go lines
491-517) over the received datagrams (source address, payload text):
each valid response appends a host, each invalid one is skipped, and
the loop never fails. -/
def discoverHosts : List (String × String) → List DiscoveredHost
  | [] => []
  | (addr, r) :: rest =>
    if respContributes r then ⟨addr, parseAL r⟩ :: discoverHosts rest
    else discoverHosts rest

/-! ## Theorem C5: discovery response validation -/

/-- C5.  A received SSDP response contributes a discovered host exactly
when its first `AL` header value (case-insensitive match, first
matching line wins — that scan is `parseAL` itself) parses as a URI
with scheme `https`, a non-empty host and path `/redfish/v1` or
`/redfish/v1/`; the collection loop is a pure filter, so an invalid
response never aborts the others, and a cycle with zero valid
responses yields the empty list (the loop cannot fail). -/
theorem c5_discovery_response_validation (dgs : List (String × String)) :
    discoverHosts dgs =
      (dgs.filter (fun d => respContributes d.2)).map
        (fun d => DiscoveredHost.mk d.1 (parseAL d.2)) ∧
    (∀ r : String, respContributes r = true ↔
      (parseAL r ≠ "" ∧ ∃ u : GoURL, urlParse (parseAL r) = some u ∧
        u.Scheme = "https" ∧ u.Host ≠ "" ∧
        (u.Path = "/redfish/v1" ∨ u.Path = "/redfish/v1/"))) ∧
    discoverHosts [] = [] := by
  refine ⟨?_, ?_, rfl⟩
  · induction dgs with
    | nil => rfl
    | cons d rest ih =>
      obtain ⟨a, r⟩ := d
      by_cases h : respContributes r
      · simp [discoverHosts, h, List.filter_cons, ih]
      · simp [discoverHosts, h, List.filter_cons, ih]
  · intro r
    simp only [respContributes, isValidServiceRoot]
    rcases hp : urlParse (parseAL r) with _ | u
    · simp
    · simp [bne_iff_ne, Option.some.injEq]
      intro _
      tauto

/-- Witness for C5: of two received datagrams, exactly the one whose
`AL` value is a valid `https` service root survives. -/
theorem c5_witness :
    discoverHosts [("10.0.0.9", "AL: https://10.0.0.9/redfish/v1"),
        ("10.0.0.7", "AL: ftp://x/redfish/v1")] =
      [⟨"10.0.0.9", "https://10.0.0.9/redfish/v1"⟩] := by
  have h := (c5_discovery_response_validation
    [("10.0.0.9", "AL: https://10.0.0.9/redfish/v1"),
     ("10.0.0.7", "AL: ftp://x/redfish/v1")]).1
  rw [h]
  rfl

/-! ## Host registry (`pkg/common/hosts.go`, `pkg/config/config.go`) -/

/-- Embeds `config.HostConfig` (config.go lines 29-36).  A zero `Port`
is the Go zero value, "use the default". -/
structure HostConfig where
  Address : String
  Port : Nat
  Username : String
  Password : String
  AuthMethod : String
  TLSServerCACert : String
deriving DecidableEq, Repr

/-- The entry built for a discovered host in `GetHosts`:
`config.HostConfig{Address: discovered.Address}` — every other field is
the Go zero value. -/
def bareHost (address : String) : HostConfig := ⟨address, 0, "", "", "", ""⟩

/-- One step of the discovered-host loop of `GetHosts`: insert only
when the address is not already a key. -/
def discStep (m : List (String × HostConfig)) (d : DiscoveredHost) :
    List (String × HostConfig) :=
  if (assocLookup m d.Address).isSome then m
  else assocSet m d.Address (bareHost d.Address)

/-- Embeds `HostManager.GetHosts` (hosts.go lines 263-294): build a map
keyed by address from the static hosts, add each discovered host only
when its address is absent, return the values.  (Go returns the values
in random map-iteration order; the claims are order-free, so the model
returns them in key-insertion order.) -/
def GetHosts (staticHosts : List HostConfig) (discoveredHosts : List DiscoveredHost) :
    List HostConfig :=
  let m := staticHosts.foldl (fun m h => assocSet m h.Address h) []
  let m2 := discoveredHosts.foldl discStep m
  m2.map Prod.snd

/-! ### Association-map lemmas for the merge -/

theorem keys_assocSet_iff {α β : Type} [DecidableEq α]
    (m : List (α × β)) (k : α) (v : β) (a : α) :
    a ∈ (assocSet m k v).map Prod.fst ↔ a ∈ m.map Prod.fst ∨ a = k := by
  induction m with
  | nil => simp [assocSet]
  | cons p rest ih =>
    rw [show assocSet (p :: rest) k v =
        if p.1 = k then (k, v) :: rest else p :: assocSet rest k v from rfl]
    by_cases hp : p.1 = k
    · rw [if_pos hp]
      simp only [List.map_cons, List.mem_cons, hp]
      tauto
    · rw [if_neg hp]
      simp only [List.map_cons, List.mem_cons, ih]
      tauto

theorem nodup_keys_assocSet {α β : Type} [DecidableEq α]
    (m : List (α × β)) (k : α) (v : β)
    (h : (m.map Prod.fst).Nodup) : ((assocSet m k v).map Prod.fst).Nodup := by
  induction m with
  | nil => simp [assocSet]
  | cons p rest ih =>
    rw [show assocSet (p :: rest) k v =
        if p.1 = k then (k, v) :: rest else p :: assocSet rest k v from rfl]
    simp only [List.map_cons, List.nodup_cons] at h
    by_cases hp : p.1 = k
    · rw [if_pos hp]
      simp only [List.map_cons, List.nodup_cons]
      exact ⟨hp ▸ h.1, h.2⟩
    · rw [if_neg hp]
      simp only [List.map_cons, List.nodup_cons]
      refine ⟨?_, ih h.2⟩
      rw [keys_assocSet_iff]
      rintro (hc | hc)
      · exact h.1 hc
      · exact hp hc

theorem assocLookup_isSome_iff {α β : Type} [DecidableEq α]
    (m : List (α × β)) (k : α) :
    (assocLookup m k).isSome = true ↔ k ∈ m.map Prod.fst := by
  induction m with
  | nil => simp [assocLookup]
  | cons p rest ih =>
    rw [show assocLookup (p :: rest) k =
        if p.1 = k then some p.2 else assocLookup rest k from by
      unfold assocLookup
      rw [List.find?_cons]
      by_cases hp : p.1 = k
      · simp [hp]
      · simp [hp]]
    by_cases hp : p.1 = k
    · simp [hp]
    · rw [if_neg hp]
      simp only [List.map_cons, List.mem_cons, ih]
      constructor
      · intro h; right; exact h
      · rintro (h | h)
        · exact absurd h.symm hp
        · exact h

/-! ### The two folds of `GetHosts` -/

/-- The static-host fold keeps unique keys, stores each host under its
own address, only ever stores hosts of the static list, and its key set
is the key set of the seed plus the static addresses. -/
theorem staticFold_props (static : List HostConfig) :
    ∀ (hs : List HostConfig) (m : List (String × HostConfig)),
      (∀ h ∈ hs, h ∈ static) →
      (m.map Prod.fst).Nodup →
      (∀ p ∈ m, p.2.Address = p.1 ∧ p.2 ∈ static) →
      (((hs.foldl (fun m h => assocSet m h.Address h) m).map Prod.fst).Nodup ∧
       (∀ p ∈ hs.foldl (fun m h => assocSet m h.Address h) m,
          p.2.Address = p.1 ∧ p.2 ∈ static)) ∧
      (∀ a, a ∈ (hs.foldl (fun m h => assocSet m h.Address h) m).map Prod.fst ↔
        a ∈ m.map Prod.fst ∨ a ∈ hs.map HostConfig.Address) := by
  intro hs
  induction hs with
  | nil =>
    intro m _ hnd hval
    exact ⟨⟨hnd, hval⟩, fun a => by simp⟩
  | cons h t ih =>
    intro m hsub hnd hval
    have hmem : h ∈ static := hsub h (List.mem_cons_self _ _)
    have hnd' : ((assocSet m h.Address h).map Prod.fst).Nodup :=
      nodup_keys_assocSet m _ _ hnd
    have hval' : ∀ p ∈ assocSet m h.Address h, p.2.Address = p.1 ∧ p.2 ∈ static := by
      intro p hp
      rcases mem_assocSet m _ _ p hp with h' | h'
      · subst h'
        exact ⟨rfl, hmem⟩
      · exact hval p h'
    have hsub' : ∀ x ∈ t, x ∈ static := fun x hx => hsub x (List.mem_cons_of_mem _ hx)
    have := ih (assocSet m h.Address h) hsub' hnd' hval'
    refine ⟨this.1, fun a => ?_⟩
    rw [show (h :: t).foldl (fun m h => assocSet m h.Address h) m =
        t.foldl (fun m h => assocSet m h.Address h) (assocSet m h.Address h) from rfl]
    rw [this.2 a, keys_assocSet_iff]
    simp only [List.map_cons, List.mem_cons]
    tauto

/-- The invariant carried through the discovered-host fold. -/
def discInv (static : List HostConfig) (m : List (String × HostConfig)) : Prop :=
  (m.map Prod.fst).Nodup ∧
  (∀ p ∈ m, p.2.Address = p.1 ∧
    (p.1 ∈ static.map HostConfig.Address → p.2 ∈ static) ∧
    (p.1 ∉ static.map HostConfig.Address → p.2 = bareHost p.1)) ∧
  (∀ a ∈ static.map HostConfig.Address, a ∈ m.map Prod.fst)

/-- The discovered-host fold preserves the invariant and its key set is
the key set of the seed plus the discovered addresses. -/
theorem discFold_props (static : List HostConfig) :
    ∀ (ds : List DiscoveredHost) (m : List (String × HostConfig)),
      discInv static m →
      discInv static (ds.foldl discStep m) ∧
      (∀ a, a ∈ (ds.foldl discStep m).map Prod.fst ↔
        a ∈ m.map Prod.fst ∨ a ∈ ds.map DiscoveredHost.Address) := by
  intro ds
  induction ds with
  | nil =>
    intro m hinv
    exact ⟨hinv, fun a => by simp⟩
  | cons d t ih =>
    intro m hinv
    rw [show (d :: t).foldl discStep m = t.foldl discStep (discStep m d) from rfl]
    by_cases hpres : (assocLookup m d.Address).isSome = true
    · have hstep : discStep m d = m := by
        unfold discStep
        rw [if_pos hpres]
      rw [hstep]
      have := ih m hinv
      refine ⟨this.1, fun a => ?_⟩
      rw [this.2 a]
      have hdmem : d.Address ∈ m.map Prod.fst := (assocLookup_isSome_iff m _).mp hpres
      simp only [List.map_cons, List.mem_cons]
      constructor
      · rintro (h | h)
        · left; exact h
        · right; right; exact h
      · rintro (h | h | h)
        · left; exact h
        · left; exact h ▸ hdmem
        · right; exact h
    · have hstep : discStep m d = assocSet m d.Address (bareHost d.Address) := by
        unfold discStep
        rw [if_neg hpres]
      have habs : d.Address ∉ m.map Prod.fst := by
        intro hc
        exact hpres ((assocLookup_isSome_iff m _).mpr hc)
      have hdns : d.Address ∉ static.map HostConfig.Address := by
        intro hc
        exact habs (hinv.2.2 d.Address hc)
      have hinv' : discInv static (assocSet m d.Address (bareHost d.Address)) := by
        refine ⟨nodup_keys_assocSet m _ _ hinv.1, ?_, ?_⟩
        · intro p hp
          rcases mem_assocSet m _ _ p hp with h' | h'
          · subst h'
            exact ⟨rfl, fun hc => absurd hc hdns, fun _ => rfl⟩
          · exact hinv.2.1 p h'
        · intro a ha
          rw [keys_assocSet_iff]
          left
          exact hinv.2.2 a ha
      rw [hstep]
      have := ih _ hinv'
      refine ⟨this.1, fun a => ?_⟩
      rw [this.2 a, keys_assocSet_iff]
      simp only [List.map_cons, List.mem_cons]
      tauto

/-! ## Theorem C4: the registry merge -/

/-- C4.  For every registry state, `GetHosts` returns exactly one entry
per distinct address — the address set being the union of the static
and discovered addresses; an entry whose address is statically
configured is a static host record (credentials intact, never
overridden by a discovered host); an entry whose address is
discovered-only carries exactly the bare address with every other field
at its zero value (no credentials, port or auth method). -/
theorem c4_gethosts_merge (staticHosts : List HostConfig)
    (discoveredHosts : List DiscoveredHost) :
    ((GetHosts staticHosts discoveredHosts).map HostConfig.Address).Nodup ∧
    (∀ a, a ∈ (GetHosts staticHosts discoveredHosts).map HostConfig.Address ↔
      a ∈ staticHosts.map HostConfig.Address ∨
      a ∈ discoveredHosts.map DiscoveredHost.Address) ∧
    (∀ h ∈ GetHosts staticHosts discoveredHosts,
      (h.Address ∈ staticHosts.map HostConfig.Address → h ∈ staticHosts) ∧
      (h.Address ∉ staticHosts.map HostConfig.Address → h = bareHost h.Address)) := by
  have hstatic := staticFold_props staticHosts staticHosts []
    (fun h hh => hh) (by simp) (by simp)
  set m1 := staticHosts.foldl (fun m h => assocSet m h.Address h) [] with hm1
  have hkeys1 : ∀ a, a ∈ m1.map Prod.fst ↔ a ∈ staticHosts.map HostConfig.Address := by
    intro a
    rw [hstatic.2 a]
    simp
  have hinv1 : discInv staticHosts m1 := by
    refine ⟨hstatic.1.1, ?_, ?_⟩
    · intro p hp
      obtain ⟨ha, hs⟩ := hstatic.1.2 p hp
      refine ⟨ha, fun _ => hs, fun hc => ?_⟩
      exact absurd (ha ▸ List.mem_map_of_mem HostConfig.Address hs) hc
    · intro a ha
      exact (hkeys1 a).mpr ha
  have hdisc := discFold_props staticHosts discoveredHosts m1 hinv1
  set m2 := discoveredHosts.foldl discStep m1 with hm2
  have hres : GetHosts staticHosts discoveredHosts = m2.map Prod.snd := rfl
  have haddr : (GetHosts staticHosts discoveredHosts).map HostConfig.Address =
      m2.map Prod.fst := by
    rw [hres, List.map_map]
    exact List.map_congr_left (fun p hp => (hdisc.1.2.1 p hp).1)
  refine ⟨?_, ?_, ?_⟩
  · rw [haddr]
    exact hdisc.1.1
  · intro a
    rw [haddr, hdisc.2 a, hkeys1 a]
  · intro h hh
    rw [hres] at hh
    obtain ⟨p, hp, hph⟩ := List.mem_map.mp hh
    obtain ⟨ha, hst, hbare⟩ := hdisc.1.2.1 p hp
    subst hph
    rw [ha]
    exact ⟨hst, hbare⟩

/-- Witness for C4: a static host for `10.0.0.5` (with credentials) and
discovered hosts for `10.0.0.5` and `10.0.0.9` merge into the intact
static entry plus a bare entry for `10.0.0.9`. -/
theorem c4_witness :
    GetHosts [⟨"10.0.0.5", 0, "admin", "pw", "session", ""⟩]
        [⟨"10.0.0.5", "https://10.0.0.5/redfish/v1"⟩,
         ⟨"10.0.0.9", "https://10.0.0.9/redfish/v1"⟩] =
      [⟨"10.0.0.5", 0, "admin", "pw", "session", ""⟩, bareHost "10.0.0.9"] ∧
    (("10.0.0.9" : String) ∈
      (GetHosts [⟨"10.0.0.5", 0, "admin", "pw", "session", ""⟩]
        [⟨"10.0.0.5", "https://10.0.0.5/redfish/v1"⟩,
         ⟨"10.0.0.9", "https://10.0.0.9/redfish/v1"⟩]).map HostConfig.Address) := by
  constructor
  · rfl
  · exact ((c4_gethosts_merge
      [⟨"10.0.0.5", 0, "admin", "pw", "session", ""⟩]
      [⟨"10.0.0.5", "https://10.0.0.5/redfish/v1"⟩,
       ⟨"10.0.0.9", "https://10.0.0.9/redfish/v1"⟩]).2.1 "10.0.0.9").mpr
      (by decide)

end RedfishMCP
